import Mathlib

/-!
# Cluster endpoints of the dashboard: a shallow embedding of `pkg/endpoints/cluster.go`

The handlers of `cluster.go` read cluster objects through client calls and answer on a
`restful.Response`.  Here a handler is a function from the values its client calls
return to the list of calls it makes on the response, in order; `ProxyRequest` also
gives the request it forwards.  Calls on the process logger (`logging.Log`) do not touch
the response and are left out.

Go strings are modelled by `String`; the separators `":"`, `"@"` and the marker
`"pipeline/cmd/controller"` are ASCII, so splitting by character and by byte agree on
UTF-8 text.  A Go `map[string]string` is an association list read with first-match
lookup, a missing key reading as `""`.  A Go run-time panic (index out of range) is `none`.
-/

namespace Endpoints

/-! ## Data model -/

/-- Go `error` values, by their message. -/
abbrev GoError := String

/-- The `net/http` constant `http.StatusInternalServerError`. -/
def StatusInternalServerError : Nat := 500

/-- The `net/http` constant `http.StatusNotFound`. -/
def StatusNotFound : Nat := 404

/-- The constant `tektonDashboardIngressName`. -/
def tektonDashboardIngressName : String := "tekton-dashboard"

/-- The constant `tektonDashboardRouteName`. -/
def tektonDashboardRouteName : String := "tekton-dashboard"

/-- The `Properties` struct of `cluster.go`. -/
structure Properties where
  InstallNamespace : String
  deriving DecidableEq, Repr

/-- The fields of an OpenShift `RouteSpec` that the handlers read. -/
structure RouteSpec where
  Host : String
  deriving DecidableEq, Repr

/-- An OpenShift `Route`. -/
structure Route where
  Spec : RouteSpec
  deriving DecidableEq, Repr

/-- One `IngressRule` of an ingress. -/
structure IngressRule where
  Host : String
  deriving DecidableEq, Repr

/-- The fields of an `IngressSpec` that the handlers read. -/
structure IngressSpec where
  Rules : List IngressRule
  deriving DecidableEq, Repr

/-- A Kubernetes `Ingress`. -/
structure Ingress where
  Spec : IngressSpec
  deriving DecidableEq, Repr

/-- The local struct `element` of `GetEndpoints` (JSON fields `type` and `url`). -/
structure element where
  Type_ : String
  Url : String
  deriving DecidableEq, Repr

/-- The values the handlers pass to `response.WriteEntity`. -/
inductive Entity where
  | str (s : String)
  | elements (es : List element)
  | properties (p : Properties)
  deriving DecidableEq, Repr

/-- A Go `[]byte`, also standing for the content of a body stream. -/
abbrev Bytes := List UInt8

/-- One call on the response.  `utils.RespondError` lives in another package; the call
is recorded with the error (possibly nil) and the status code it is given.
`HeaderAdd key value` is `response.Header().Add(key, value)` and `Write body` is
`response.Write(body)`. -/
inductive ResponseCall where
  | WriteEntity (e : Entity)
  | RespondError (err : Option GoError) (status : Nat)
  | HeaderAdd (key value : String)
  | Write (body : Bytes)
  deriving DecidableEq, Repr

/-! ## `GetIngress` -/

/-- `GetIngress`, lines 62-90: `ingress` and `err` are the two results of the
`Ingresses(ns).Get` call. -/
def GetIngress (ingress : Option Ingress) (err : Option GoError) : List ResponseCall :=
  match err, ingress with
  | none, some ingress =>
    match ingress.Spec.Rules with
    | rule0 :: _ =>
      if rule0.Host ≠ "" then
        let ingressHost := rule0.Host
        [ResponseCall.WriteEntity (Entity.str ingressHost)]
      else
        [ResponseCall.RespondError err StatusInternalServerError]
    | [] =>
      [ResponseCall.RespondError err StatusInternalServerError]
  | _, _ =>
    [ResponseCall.RespondError err StatusInternalServerError]

/-! ## `GetEndpoints` -/

/-- Lines 101-112 of `GetEndpoints`: the route block, appending to `responses`. -/
def routeBlock (responses : List element) (route : Option Route) (err : Option GoError) :
    List element :=
  match err, route with
  | none, some route =>
    if route.Spec.Host ≠ "" then
      let routeHost := route.Spec.Host
      responses ++ [element.mk "Route" routeHost]
    else
      responses
  | _, _ => responses

/-- Lines 114-127 of `GetEndpoints`: the ingress block, appending to `responses`. -/
def ingressBlock (responses : List element) (ingress : Option Ingress)
    (err : Option GoError) : List element :=
  match err, ingress with
  | none, some ingress =>
    match ingress.Spec.Rules with
    | rule0 :: _ =>
      if rule0.Host ≠ "" then
        let ingressHost := rule0.Host
        responses ++ [element.mk "Ingress" ingressHost]
      else
        responses
    | [] => responses
  | _, _ => responses

/-- `GetEndpoints`, lines 93-135: `route`, `routeErr` are the results of the
`Routes(ns).Get` call and `ingress`, `err` those of the `Ingresses(ns).Get` call, which
reassigns `err`. -/
def GetEndpoints (route : Option Route) (routeErr : Option GoError)
    (ingress : Option Ingress) (err : Option GoError) : List ResponseCall :=
  let responses : List element := []
  let responses := routeBlock responses route routeErr
  let responses := ingressBlock responses ingress err
  if responses.length ≠ 0 then
    [ResponseCall.WriteEntity (Entity.elements responses)]
  else
    [ResponseCall.RespondError err StatusInternalServerError]

/-! ## Go library functions used by the version resolvers -/

/-- Indexing a Go `map[string]string`: the value stored under `key`, or `""`. -/
def mapIndex (m : List (String × String)) (key : String) : String :=
  (m.lookup key).getD ""

/-- Whether `substr` occurs in `s`, on character lists. -/
def containsChars : List Char → List Char → Bool
  | [], substr => substr.isEmpty
  | c :: cs, substr => substr.isPrefixOf (c :: cs) || containsChars cs substr

/-- Go `strings.Contains(s, substr)`. -/
def stringsContains (s substr : String) : Bool :=
  containsChars s.data substr.data

/-- The loop of Go `genSplit(s, sep, sepSave, -1)` for a non-empty `sep`, on character
lists: `skip` counts the characters of an occurrence of `sep` still to be stepped over,
and `save` says whether the pieces keep the separator (`sepSave = len(sep)`) or drop it
(`sepSave = 0`). -/
def genSplitChars (sep : List Char) (save : Bool) : Nat → List Char → List (List Char)
  | _, [] => [[]]
  | skip + 1, _ :: cs => genSplitChars sep save skip cs
  | 0, c :: cs =>
    if sep.isPrefixOf (c :: cs) then
      (if save then sep else []) :: genSplitChars sep save (sep.length - 1) cs
    else
      match genSplitChars sep save 0 cs with
      | piece :: pieces => (c :: piece) :: pieces
      | [] => [[c]]

/-- Go `explode(s, -1)`: one string per character. -/
def explode (s : String) : List String :=
  s.data.map (fun c => String.mk [c])

/-- Go `strings.SplitAfter(s, sep)`. -/
def stringsSplitAfter (s sep : String) : List String :=
  if sep = "" then explode s
  else (genSplitChars sep.data true 0 s.data).map String.mk

/-- Go `strings.Split(s, sep)`. -/
def stringsSplit (s sep : String) : List String :=
  if sep = "" then explode s
  else (genSplitChars sep.data false 0 s.data).map String.mk

/-! ## Deployments -/

/-- The field of a `Container` that the handlers read. -/
structure Container where
  Image : String
  deriving DecidableEq, Repr

/-- The field of a `PodSpec` that the handlers read. -/
structure PodSpec where
  Containers : List Container
  deriving DecidableEq, Repr

/-- A `PodTemplateSpec`: the annotations of its metadata and its pod spec. -/
structure PodTemplateSpec where
  Annotations : List (String × String)
  Spec : PodSpec
  deriving DecidableEq, Repr

/-- The field of a `DeploymentSpec` that the handlers read. -/
structure DeploymentSpec where
  Template : PodTemplateSpec
  deriving DecidableEq, Repr

/-- A `Deployment`: the labels of its metadata and its spec. -/
structure Deployment where
  Labels : List (String × String)
  Spec : DeploymentSpec
  deriving DecidableEq, Repr

/-! ## `GetDashboardVersion` -/

/-- The loop of `GetDashboardVersion`, lines 160-163: the value of `version` after
ranging over `items`, starting from `version`. -/
def dashboardVersionLoop : List Deployment → String → String
  | [], version => version
  | deployment :: items, _ =>
    let deploymentLabels := deployment.Labels
    dashboardVersionLoop items (mapIndex deploymentLabels "version")

/-- `GetDashboardVersion`, lines 152-170, on the `deployments.Items` of a successful
listing. -/
def GetDashboardVersion (items : List Deployment) : List ResponseCall :=
  let version := dashboardVersionLoop items ""
  if version = "" then
    [ResponseCall.WriteEntity (Entity.str "Unknown")]
  else
    [ResponseCall.WriteEntity (Entity.str version)]

/-! ## `GetPipelineVersion` -/

/-- The body of the loop of `GetPipelineVersion`, lines 189-199: the value of `version`
at the end of the iteration on `deployment`, or `none` when an index is out of range. -/
def pipelineVersionBody (deployment : Deployment) : Option String :=
  let deploymentAnnotations := deployment.Spec.Template.Annotations
  let version := mapIndex deploymentAnnotations "tekton.dev/release"
  if version = "" then
    match deployment.Spec.Template.Spec.Containers with
    | [] => none
    | container0 :: _ =>
      let deploymentImage := container0.Image
      if stringsContains deploymentImage "pipeline/cmd/controller" then
        let s := stringsSplitAfter deploymentImage ":"
        match s.get? 1 with
        | none => none
        | some s1 =>
          let t := stringsSplit s1 "@"
          t.get? 0
      else
        some version
  else
    some version

/-- The loop of `GetPipelineVersion`, lines 188-200: the value of `version` after
ranging over `items`, starting from `version`, or `none` when an iteration panics. -/
def pipelineVersionLoop : List Deployment → String → Option String
  | [], version => some version
  | deployment :: items, _ =>
    match pipelineVersionBody deployment with
    | none => none
    | some version => pipelineVersionLoop items version

/-- `GetPipelineVersion`, lines 180-207, on the `deployments.Items` of a successful
listing: the calls made on the response, or `none` when the handler panics. -/
def GetPipelineVersion (items : List Deployment) : Option (List ResponseCall) :=
  match pipelineVersionLoop items "" with
  | none => none
  | some version =>
    if version = "" then
      some [ResponseCall.WriteEntity (Entity.str "Unknown")]
    else
      some [ResponseCall.WriteEntity (Entity.str version)]

/-! ## `ProxyRequest` -/

/-- The field of a parsed `url.URL` that `ProxyRequest` reads. -/
structure URL where
  RawQuery : String
  deriving DecidableEq, Repr

/-- The inbound request as `ProxyRequest` reads it: `request.Request.Method`,
`request.PathParameter("subpath")`, the content of `request.Request.Body` and
`request.HeaderParameter("Content-Type")`. -/
structure InboundRequest where
  Method : String
  subpath : String
  Body : Bytes
  ContentType : String
  deriving DecidableEq, Repr

/-- The request built on the REST client of the backing API server: the arguments of
`Verb`, `RequestURI` and `Body`, and the headers set with `SetHeader`. -/
structure ForwardRequest where
  Verb : String
  RequestURI : String
  Body : Bytes
  Headers : List (String × String)
  deriving DecidableEq, Repr

/-- The method `SetHeader(key, value)` of the REST client's request: the values stored
under `key` are replaced by `value`. -/
def ForwardRequest.SetHeader (r : ForwardRequest) (key value : String) : ForwardRequest :=
  { r with Headers := (r.Headers.filter (fun kv => kv.1 ≠ key)) ++ [(key, value)] }

/-- What a run of `ProxyRequest` does: the request it forwards, if it builds one, and
its calls on the response. -/
structure ProxyResult where
  forwardRequest : Option ForwardRequest
  response : List ResponseCall
  deriving DecidableEq, Repr

/-- `ProxyRequest`, lines 41-59.  `parsed` is the result of
`url.Parse(request.Request.URL.String())`, `doRaw` gives the two results of
`forwardRequest.Do().Raw()` for the request sent, and `GetContentType` is
`utils.GetContentType`, which lives in another package. -/
def ProxyRequest (GetContentType : Bytes → String)
    (doRaw : ForwardRequest → Bytes × Option GoError)
    (request : InboundRequest) (parsed : Except GoError URL) : ProxyResult :=
  match parsed with
  | Except.error err =>
    ⟨none, [ResponseCall.RespondError (some err) StatusNotFound]⟩
  | Except.ok parsedURL =>
    let uri := request.subpath ++ "?" ++ parsedURL.RawQuery
    let forwardRequest : ForwardRequest := ⟨request.Method, uri, request.Body, []⟩
    let forwardRequest := forwardRequest.SetHeader "Content-Type" request.ContentType
    let (responseBody, requestError) := doRaw forwardRequest
    if requestError ≠ none then
      ⟨some forwardRequest, [ResponseCall.RespondError requestError StatusNotFound]⟩
    else
      ⟨some forwardRequest,
        [ResponseCall.HeaderAdd "Content-Type" (GetContentType responseBody),
          ResponseCall.Write responseBody]⟩

/-! ## `GetProperties` -/

/-- Go `os.Getenv(key)` on the process environment `env`, a list of the variables that
are set with their values: the value of `key`, or `""` when it is unset. -/
def osGetenv (env : List (String × String)) (key : String) : String :=
  match env.lookup key with
  | some value => value
  | none => ""

/-- `GetProperties`, lines 138-141, in the process environment `env`. -/
def GetProperties (env : List (String × String)) : List ResponseCall :=
  let properties : Properties := { InstallNamespace := osGetenv env "INSTALLED_NAMESPACE" }
  [ResponseCall.WriteEntity (Entity.properties properties)]

/-! ## Usable sources, in the words of the specification -/

/-- The host of a usable route lookup: the lookup succeeded, the object is non-nil and
its `Spec.Host` is non-empty. -/
def usableRouteHost (route : Option Route) (routeErr : Option GoError) : Option String :=
  match routeErr, route with
  | none, some r => if r.Spec.Host = "" then none else some r.Spec.Host
  | _, _ => none

/-- The host of a usable ingress lookup: the lookup succeeded, the object is non-nil, it
has at least one rule and the first rule's host is non-empty. -/
def usableIngressHost (ingress : Option Ingress) (err : Option GoError) : Option String :=
  match err, ingress with
  | none, some i =>
    match i.Spec.Rules.head? with
    | some r => if r.Host = "" then none else some r.Host
    | none => none
  | _, _ => none

/-! ## Theorems: `GetEndpoints` -/

/-- The route block appends the Route entry of a usable route and nothing else. -/
theorem routeBlock_eq (responses : List element) (route : Option Route)
    (routeErr : Option GoError) :
    routeBlock responses route routeErr =
      responses ++ (usableRouteHost route routeErr).toList.map (element.mk "Route") := by
  unfold routeBlock usableRouteHost
  split
  · split <;> simp_all
  · simp

/-- The ingress block appends the Ingress entry of a usable ingress and nothing else. -/
theorem ingressBlock_eq (responses : List element) (ingress : Option Ingress)
    (err : Option GoError) :
    ingressBlock responses ingress err =
      responses ++ (usableIngressHost ingress err).toList.map (element.mk "Ingress") := by
  unfold ingressBlock usableIngressHost
  split
  · next i =>
    cases hr : i.Spec.Rules with
    | nil => simp
    | cons r rest =>
      by_cases hh : r.Host = "" <;> simp [hh]
  · simp

/-- The sequence accumulated by `GetEndpoints` before it answers. -/
theorem GetEndpoints_eq (route : Option Route) (routeErr : Option GoError)
    (ingress : Option Ingress) (err : Option GoError) :
    GetEndpoints route routeErr ingress err =
      if ((usableRouteHost route routeErr).toList.map (element.mk "Route") ++
          (usableIngressHost ingress err).toList.map (element.mk "Ingress")).length ≠ 0 then
        [ResponseCall.WriteEntity (Entity.elements
          ((usableRouteHost route routeErr).toList.map (element.mk "Route") ++
            (usableIngressHost ingress err).toList.map (element.mk "Ingress")))]
      else
        [ResponseCall.RespondError err StatusInternalServerError] := by
  simp only [GetEndpoints, routeBlock_eq, ingressBlock_eq, List.nil_append]

/-- C1: when at least one of the two sources is usable, `GetEndpoints` writes as its
entity exactly the Route entry (if the route is usable) followed by the Ingress entry
(if the ingress is usable), so the length of the sequence is the number of usable
sources and a Route entry comes before an Ingress entry. -/
theorem GetEndpoints_writes_usable_sources (route : Option Route)
    (routeErr : Option GoError) (ingress : Option Ingress) (err : Option GoError)
    (h : (usableRouteHost route routeErr).isSome = true ∨
      (usableIngressHost ingress err).isSome = true) :
    GetEndpoints route routeErr ingress err =
        [ResponseCall.WriteEntity (Entity.elements
          ((usableRouteHost route routeErr).toList.map (element.mk "Route") ++
            (usableIngressHost ingress err).toList.map (element.mk "Ingress")))] ∧
      ((usableRouteHost route routeErr).toList.map (element.mk "Route") ++
          (usableIngressHost ingress err).toList.map (element.mk "Ingress")).length =
        (usableRouteHost route routeErr).toList.length +
          (usableIngressHost ingress err).toList.length := by
  refine ⟨?_, by simp⟩
  rw [GetEndpoints_eq]
  cases hr : usableRouteHost route routeErr <;> cases hi : usableIngressHost ingress err <;>
    simp_all

/-- Witness for C1: a usable route and a usable ingress with two rules give the Route
entry followed by the Ingress entry of the first rule. -/
theorem GetEndpoints_writes_usable_sources_witness :
    GetEndpoints (some ⟨⟨"route.example.com"⟩⟩) none
        (some ⟨⟨[⟨"ingress.example.com"⟩, ⟨"other.example.com"⟩]⟩⟩) none =
      [ResponseCall.WriteEntity (Entity.elements
        [⟨"Route", "route.example.com"⟩, ⟨"Ingress", "ingress.example.com"⟩])] :=
  (GetEndpoints_writes_usable_sources (some ⟨⟨"route.example.com"⟩⟩) none
    (some ⟨⟨[⟨"ingress.example.com"⟩, ⟨"other.example.com"⟩]⟩⟩) none
    (Or.inl (by decide))).1

/-- A route lookup yields host `h` exactly when it succeeded with a non-nil object whose
`Spec.Host` is the non-empty string `h`. -/
theorem usableRouteHost_eq_some_iff (route : Option Route) (routeErr : Option GoError)
    (h : String) :
    usableRouteHost route routeErr = some h ↔
      routeErr = none ∧ ∃ r, route = some r ∧ r.Spec.Host = h ∧ h ≠ "" := by
  unfold usableRouteHost
  rcases routeErr with _ | e <;> rcases route with _ | r
  · simp
  · by_cases hh : r.Spec.Host = ""
    · simp only [hh, if_true, true_and, Option.some.injEq, exists_eq_left']
      constructor
      · intro h0
        cases h0
      · rintro ⟨h1, h2⟩
        exact absurd h1.symm h2
    · simp only [hh, if_false, true_and, Option.some.injEq, exists_eq_left']
      constructor
      · rintro rfl
        exact ⟨rfl, hh⟩
      · rintro ⟨h1, -⟩
        exact h1
  · simp
  · simp

/-- An ingress lookup yields host `h` exactly when it succeeded with a non-nil object
that has a first rule whose host is the non-empty string `h`. -/
theorem usableIngressHost_eq_some_iff (ingress : Option Ingress) (err : Option GoError)
    (h : String) :
    usableIngressHost ingress err = some h ↔
      err = none ∧ ∃ i r rest, ingress = some i ∧ i.Spec.Rules = r :: rest ∧
        r.Host = h ∧ h ≠ "" := by
  unfold usableIngressHost
  rcases err with _ | e <;> rcases ingress with _ | i
  · simp
  · cases hr : i.Spec.Rules with
    | nil =>
      simp only [hr, List.head?_nil, true_and, Option.some.injEq]
      constructor
      · intro h0
        cases h0
      · rintro ⟨i', r, rest, hi, hrules, -, -⟩
        cases hi
        rw [hr] at hrules
        cases hrules
    | cons r rest =>
      by_cases hh : r.Host = ""
      · simp only [hr, List.head?_cons, hh, if_true, true_and, Option.some.injEq]
        constructor
        · intro h0
          cases h0
        · rintro ⟨i', r', rest', hi, hrules, h1, h2⟩
          cases hi
          rw [hr] at hrules
          cases hrules
          exact absurd (h1.symm.trans hh) h2
      · simp only [hr, List.head?_cons, hh, if_false, Option.some.injEq, true_and]
        constructor
        · rintro rfl
          exact ⟨i, r, rest, rfl, hr, rfl, hh⟩
        · rintro ⟨i', r', rest', hi, hrules, h1, -⟩
          cases hi
          rw [hr] at hrules
          cases hrules
          exact h1
  · simp
  · simp

/-- A route lookup is unusable exactly when it failed, returned nil, or returned a
route with an empty host. -/
theorem usableRouteHost_eq_none_iff (route : Option Route) (routeErr : Option GoError) :
    usableRouteHost route routeErr = none ↔
      routeErr ≠ none ∨ route = none ∨ ∃ r, route = some r ∧ r.Spec.Host = "" := by
  unfold usableRouteHost
  rcases routeErr with _ | e <;> rcases route with _ | r <;> simp

/-- An ingress lookup is unusable exactly when it failed, returned nil, or returned an
ingress with zero rules or with an empty host in its first rule. -/
theorem usableIngressHost_eq_none_iff (ingress : Option Ingress) (err : Option GoError) :
    usableIngressHost ingress err = none ↔
      err ≠ none ∨ ingress = none ∨
        ∃ i, ingress = some i ∧
          (i.Spec.Rules = [] ∨ ∃ r rest, i.Spec.Rules = r :: rest ∧ r.Host = "") := by
  unfold usableIngressHost
  rcases err with _ | e <;> rcases ingress with _ | i
  · simp
  · cases hr : i.Spec.Rules with
    | nil => simp [hr]
    | cons r rest => simp [hr]
  · simp
  · simp

/-- C2: `GetEndpoints` answers with `RespondError` at status 500 exactly when the route
lookup failed, returned nil or has an empty host and the ingress lookup failed, returned
nil, has zero rules or has an empty first-rule host; in every other case it makes no
`RespondError` call at all, so one missing or unusable source alone is never fatal. -/
theorem GetEndpoints_internal_error_iff_no_usable_source (route : Option Route)
    (routeErr : Option GoError) (ingress : Option Ingress) (err : Option GoError) :
    (GetEndpoints route routeErr ingress err =
        [ResponseCall.RespondError err StatusInternalServerError] ↔
      (routeErr ≠ none ∨ route = none ∨ ∃ r, route = some r ∧ r.Spec.Host = "") ∧
      (err ≠ none ∨ ingress = none ∨
        ∃ i, ingress = some i ∧
          (i.Spec.Rules = [] ∨ ∃ r rest, i.Spec.Rules = r :: rest ∧ r.Host = ""))) ∧
    ((∃ e status, ResponseCall.RespondError e status ∈
        GetEndpoints route routeErr ingress err) ↔
      (routeErr ≠ none ∨ route = none ∨ ∃ r, route = some r ∧ r.Spec.Host = "") ∧
      (err ≠ none ∨ ingress = none ∨
        ∃ i, ingress = some i ∧
          (i.Spec.Rules = [] ∨ ∃ r rest, i.Spec.Rules = r :: rest ∧ r.Host = ""))) := by
  rw [GetEndpoints_eq, ← usableRouteHost_eq_none_iff, ← usableIngressHost_eq_none_iff]
  cases hr : usableRouteHost route routeErr <;> cases hi : usableIngressHost ingress err <;>
    simp

/-! ## Theorems: `GetIngress` -/

/-- C3: for a successfully retrieved ingress with zero rules or with an empty host in
its first rule, `GetIngress` makes the single call `RespondError` at status 500, the
same call for both causes, and writes no entity, whatever the later rules hold. -/
theorem GetIngress_no_first_host_internal_error (ingress : Ingress)
    (h : ingress.Spec.Rules = [] ∨
      ∃ r rest, ingress.Spec.Rules = r :: rest ∧ r.Host = "") :
    GetIngress (some ingress) none =
        [ResponseCall.RespondError none StatusInternalServerError] ∧
      ∀ e, ResponseCall.WriteEntity e ∉ GetIngress (some ingress) none := by
  have key : GetIngress (some ingress) none =
      [ResponseCall.RespondError none StatusInternalServerError] := by
    rcases h with h | ⟨r, rest, h, hh⟩
    · simp [GetIngress, h]
    · simp [GetIngress, h, hh]
  refine ⟨key, ?_⟩
  intro e
  rw [key]
  simp

/-- Witness for C3: an empty first host followed by a rule that has a host. -/
theorem GetIngress_no_first_host_internal_error_witness :
    GetIngress (some ⟨⟨[⟨""⟩, ⟨"later.example.com"⟩]⟩⟩) none =
        [ResponseCall.RespondError none StatusInternalServerError] ∧
      ∀ e, ResponseCall.WriteEntity e ∉
        GetIngress (some ⟨⟨[⟨""⟩, ⟨"later.example.com"⟩]⟩⟩) none :=
  GetIngress_no_first_host_internal_error ⟨⟨[⟨""⟩, ⟨"later.example.com"⟩]⟩⟩
    (Or.inr ⟨⟨""⟩, [⟨"later.example.com"⟩], rfl, rfl⟩)

/-- C4: for a successfully retrieved ingress whose first rule has the non-empty host
`h`, `GetIngress` makes the single call `WriteEntity h`, and two ingresses with the same
first rule get the same response whatever their later rules are. -/
theorem GetIngress_first_rule_only (r : IngressRule) (rest rest' : List IngressRule)
    (h : r.Host ≠ "") :
    GetIngress (some ⟨⟨r :: rest⟩⟩) none =
        [ResponseCall.WriteEntity (Entity.str r.Host)] ∧
      GetIngress (some ⟨⟨r :: rest⟩⟩) none = GetIngress (some ⟨⟨r :: rest'⟩⟩) none := by
  simp [GetIngress, h]

/-- Witness for C4: two ingresses that share the first rule and differ afterwards. -/
theorem GetIngress_first_rule_only_witness :
    GetIngress (some ⟨⟨[⟨"dash.example.com"⟩, ⟨"a.example.com"⟩]⟩⟩) none =
        [ResponseCall.WriteEntity (Entity.str "dash.example.com")] ∧
      GetIngress (some ⟨⟨[⟨"dash.example.com"⟩, ⟨"a.example.com"⟩]⟩⟩) none =
        GetIngress (some ⟨⟨[⟨"dash.example.com"⟩, ⟨""⟩, ⟨"b.example.com"⟩]⟩⟩) none :=
  GetIngress_first_rule_only ⟨"dash.example.com"⟩ [⟨"a.example.com"⟩]
    [⟨""⟩, ⟨"b.example.com"⟩] (by decide)

/-- C5: when the ingress lookup returns an error or a nil object, `GetIngress` makes
the single call `RespondError` at status 500 with the lookup's error and writes no
entity; the response is the same for every object returned along with an error, so no
rule is read. -/
theorem GetIngress_lookup_failure_internal_error (ingress : Option Ingress)
    (err : Option GoError) (h : err ≠ none ∨ ingress = none) :
    GetIngress ingress err = [ResponseCall.RespondError err StatusInternalServerError] ∧
      (∀ e, ResponseCall.WriteEntity e ∉ GetIngress ingress err) ∧
      (err ≠ none → ∀ other : Option Ingress, GetIngress other err = GetIngress ingress err) := by
  have key : ∀ i : Option Ingress, (err ≠ none ∨ i = none) →
      GetIngress i err = [ResponseCall.RespondError err StatusInternalServerError] := by
    intro i hi
    rcases err with _ | e <;> rcases i with _ | i <;> simp_all [GetIngress]
  refine ⟨key ingress h, ?_, ?_⟩
  · intro e
    rw [key ingress h]
    simp
  · intro he other
    rw [key ingress h, key other (Or.inl he)]

/-- Witness for C5: a lookup error returned together with an ingress that has a host. -/
theorem GetIngress_lookup_failure_internal_error_witness :
    GetIngress (some ⟨⟨[⟨"dash.example.com"⟩]⟩⟩) (some "ingresses not found") =
      [ResponseCall.RespondError (some "ingresses not found") StatusInternalServerError] :=
  (GetIngress_lookup_failure_internal_error (some ⟨⟨[⟨"dash.example.com"⟩]⟩⟩)
    (some "ingresses not found") (Or.inl (by simp))).1

/-! ## Splitting at a one-character separator -/

/-- Every list contains the empty list. -/
theorem containsChars_nil (s : List Char) : containsChars s [] = true := by
  cases s <;> simp [containsChars]

/-- An occurrence of `substr` in `s` is an occurrence in `s ++ t`. -/
theorem containsChars_append (s t substr : List Char) (h : containsChars s substr = true) :
    containsChars (s ++ t) substr = true := by
  induction s with
  | nil =>
    have hs : substr = [] := by simpa [containsChars] using h
    rw [hs]
    exact containsChars_nil _
  | cons c cs ih =>
    simp only [containsChars, Bool.or_eq_true] at h
    simp only [List.cons_append, containsChars, Bool.or_eq_true]
    rcases h with h | h
    · left
      rw [List.isPrefixOf_iff_prefix] at h ⊢
      exact h.trans (List.prefix_append (c :: cs) t)
    · right
      exact ih h

/-- The split never returns the empty list of pieces. -/
theorem genSplitChars_ne_nil (sep : List Char) (save : Bool) (skip : Nat) (s : List Char) :
    genSplitChars sep save skip s ≠ [] := by
  induction s generalizing skip with
  | nil => cases skip <;> simp [genSplitChars]
  | cons c cs ih =>
    cases skip with
    | succ k => simpa [genSplitChars] using ih k
    | zero =>
      rw [genSplitChars]
      split
      · simp
      · split <;> simp

/-- At an occurrence of a one-character separator a piece ends. -/
theorem genSplitChars_single_cons_sep (x : Char) (save : Bool) (cs : List Char) :
    genSplitChars [x] save 0 (x :: cs) =
      (if save then [x] else []) :: genSplitChars [x] save 0 cs := by
  simp [genSplitChars]

/-- A stretch free of the one-character separator goes whole into the first piece. -/
theorem genSplitChars_single_append (x : Char) (save : Bool) (pre rest : List Char)
    (h : x ∉ pre) :
    genSplitChars [x] save 0 (pre ++ rest) =
      (pre ++ (genSplitChars [x] save 0 rest).headD []) ::
        (genSplitChars [x] save 0 rest).tail := by
  induction pre with
  | nil =>
    cases hg : genSplitChars [x] save 0 rest with
    | nil => exact absurd hg (genSplitChars_ne_nil _ _ _ _)
    | cons p ps => simpa using hg
  | cons c cs ih =>
    have hc : x ≠ c := fun e => h (by simp [e])
    have hcs : x ∉ cs := fun e => h (by simp [e])
    have hp : List.isPrefixOf [x] (c :: (cs ++ rest)) = false := by
      simp [List.isPrefixOf, hc]
    rw [List.cons_append, genSplitChars, hp, ih hcs]
    simp

/-- The first piece of `strings.Split(s, "@")` when `s` starts with an '@'-free `tag`
that is either all of `s` or followed by '@'. -/
theorem genSplitChars_at_head (tag rest : List Char) (h : '@' ∉ tag)
    (hr : rest = [] ∨ ∃ r, rest = '@' :: r) :
    (genSplitChars ['@'] false 0 (tag ++ rest)).head? = some tag := by
  rw [genSplitChars_single_append '@' false tag rest h]
  rcases hr with rfl | ⟨r, rfl⟩
  · simp [genSplitChars]
  · rw [genSplitChars_single_cons_sep]
    simp

/-- The second piece of `strings.SplitAfter(image, ":")` for an image made of a ':'-free
name, a ':', a ':'-free tag and a remainder that is empty or starts with '@': it is the
tag, alone or followed by '@'. -/
theorem genSplitChars_colon_second (name tag rest : List Char) (hn : ':' ∉ name)
    (ht : ':' ∉ tag) (hr : rest = [] ∨ ∃ r, rest = '@' :: r) :
    ∃ rest', (genSplitChars [':'] true 0 (name ++ ':' :: (tag ++ rest))).get? 1 =
        some (tag ++ rest') ∧ (rest' = [] ∨ ∃ r, rest' = '@' :: r) := by
  rw [genSplitChars_single_append ':' true name _ hn, genSplitChars_single_cons_sep,
    genSplitChars_single_append ':' true tag rest ht]
  rcases hr with rfl | ⟨r, rfl⟩
  · exact ⟨[], by simp [genSplitChars], Or.inl rfl⟩
  · have h2 : ':' ∉ ['@'] := by decide
    have h3 := genSplitChars_single_append ':' true ['@'] r h2
    rw [List.singleton_append] at h3
    rw [h3]
    exact ⟨'@' :: (genSplitChars [':'] true 0 r).headD [], by simp, Or.inr ⟨_, rfl⟩⟩

/-! ## Theorems: the version resolvers -/

/-- One iteration on a deployment that carries a non-empty release value keeps that
value and reads no container. -/
theorem pipelineVersionBody_of_release (d : Deployment)
    (h : mapIndex d.Spec.Template.Annotations "tekton.dev/release" ≠ "") :
    pipelineVersionBody d = some (mapIndex d.Spec.Template.Annotations "tekton.dev/release") := by
  simp [pipelineVersionBody, h]

/-- One iteration on a deployment without release value whose first container's image
lacks the marker leaves `version` empty. -/
theorem pipelineVersionBody_of_no_marker (d : Deployment) (c : Container)
    (cs : List Container)
    (ha : mapIndex d.Spec.Template.Annotations "tekton.dev/release" = "")
    (hc : d.Spec.Template.Spec.Containers = c :: cs)
    (hm : stringsContains c.Image "pipeline/cmd/controller" = false) :
    pipelineVersionBody d = some "" := by
  simp [pipelineVersionBody, ha, hc, hm]

/-- The handler's answer in terms of the value of `version` after the loop. -/
theorem GetPipelineVersion_of_loop (items : List Deployment) (version : String)
    (h : pipelineVersionLoop items "" = some version) :
    GetPipelineVersion items =
      some [ResponseCall.WriteEntity (Entity.str (if version = "" then "Unknown" else version))] := by
  unfold GetPipelineVersion
  rw [h]
  by_cases hv : version = "" <;> simp [hv]

/-- C6: for a deployment whose pod template carries a non-empty "tekton.dev/release"
value `a`, `GetPipelineVersion` on the list holding just that deployment writes exactly
`a`, for every list of containers (the empty one included) and every image in it. -/
theorem GetPipelineVersion_release_precedence (labels anns : List (String × String))
    (containers : List Container) (h : mapIndex anns "tekton.dev/release" ≠ "") :
    GetPipelineVersion [⟨labels, ⟨⟨anns, ⟨containers⟩⟩⟩⟩] =
      some [ResponseCall.WriteEntity (Entity.str (mapIndex anns "tekton.dev/release"))] := by
  have hl : pipelineVersionLoop [(⟨labels, ⟨⟨anns, ⟨containers⟩⟩⟩⟩ : Deployment)] "" =
      some (mapIndex anns "tekton.dev/release") := by
    simp [pipelineVersionLoop, pipelineVersionBody, h]
  rw [GetPipelineVersion_of_loop _ _ hl]
  simp [h]

/-- Witness for C6: the value "v1.2.3" is returned with no container at all. -/
theorem GetPipelineVersion_release_precedence_witness :
    GetPipelineVersion [⟨[], ⟨⟨[("tekton.dev/release", "v1.2.3")], ⟨[]⟩⟩⟩⟩] =
      some [ResponseCall.WriteEntity (Entity.str "v1.2.3")] :=
  GetPipelineVersion_release_precedence [] [("tekton.dev/release", "v1.2.3")] []
    (by decide)

/-- C7 at an image whose registry carries a port: the handler writes the text between
the first and the second ':' of the image, the second ':' included, not the tag. -/
theorem GetPipelineVersion_registry_port_image :
    GetPipelineVersion
        [⟨[], ⟨⟨[], ⟨[⟨"localhost:5000/tekton/pipeline/cmd/controller:v0.9.0"⟩]⟩⟩⟩⟩] =
      some [ResponseCall.WriteEntity (Entity.str "5000/tekton/pipeline/cmd/controller:")] := by
  decide

/-- The tag is extracted from every image made of a name that holds the marker and no
':', a ':', a non-empty tag free of ':' and '@', and an optional '@' with a digest: a
single deployment without release value whose first container has that image makes
`GetPipelineVersion` write exactly the tag. -/
theorem GetPipelineVersion_tag_of_colon_free_name (labels anns : List (String × String))
    (image name tag : String) (others : List Container)
    (ha : mapIndex anns "tekton.dev/release" = "")
    (hm : stringsContains name "pipeline/cmd/controller" = true)
    (hn : ':' ∉ name.data) (ht : tag ≠ "") (htc : ':' ∉ tag.data) (hta : '@' ∉ tag.data)
    (himage : image = name ++ ":" ++ tag ∨
      ∃ digest : String, image = name ++ ":" ++ tag ++ "@" ++ digest) :
    GetPipelineVersion [⟨labels, ⟨⟨anns, ⟨⟨image⟩ :: others⟩⟩⟩⟩] =
      some [ResponseCall.WriteEntity (Entity.str tag)] := by
  have hrest : ∃ rest : List Char, (rest = [] ∨ ∃ r, rest = '@' :: r) ∧
      image.data = name.data ++ ':' :: (tag.data ++ rest) := by
    rcases himage with rfl | ⟨dg, rfl⟩
    · exact ⟨[], Or.inl rfl, by simp [String.data_append]⟩
    · exact ⟨'@' :: dg.data, Or.inr ⟨_, rfl⟩, by simp [String.data_append]⟩
  obtain ⟨rest, hr, hdata⟩ := hrest
  have hcontains : stringsContains image "pipeline/cmd/controller" = true := by
    unfold stringsContains at hm ⊢
    rw [hdata]
    exact containsChars_append _ _ _ hm
  obtain ⟨rest', hs1, hr'⟩ := genSplitChars_colon_second name.data tag.data rest hn htc hr
  have ht0 := genSplitChars_at_head tag.data rest' hta hr'
  have hsep1 : ((":" : String) = "") = False := by decide
  have hsep2 : (("@" : String) = "") = False := by decide
  have hc : (":" : String).data = [':'] := rfl
  have hat : ("@" : String).data = ['@'] := rfl
  have hsplit : (stringsSplitAfter image ":").get? 1 = some (String.mk (tag.data ++ rest')) := by
    simp only [stringsSplitAfter, hsep1, if_false, hc, hdata, List.get?_eq_getElem?,
      List.getElem?_map] at hs1 ⊢
    rw [hs1]
    rfl
  have hsplit2 : (stringsSplit (String.mk (tag.data ++ rest')) "@").get? 0 = some tag := by
    simp only [stringsSplit, hsep2, if_false, hat, List.get?_eq_getElem?,
      List.getElem?_map, List.head?_eq_getElem?] at ht0 ⊢
    rw [ht0]
    rfl
  have hl : pipelineVersionLoop
      [(⟨labels, ⟨⟨anns, ⟨⟨image⟩ :: others⟩⟩⟩⟩ : Deployment)] "" = some tag := by
    simp only [pipelineVersionLoop, pipelineVersionBody, ha, hcontains, if_true, hsplit,
      hsplit2]
  rw [GetPipelineVersion_of_loop _ _ hl]
  simp [ht]

/-- The specification's example image, through the general statement. -/
theorem GetPipelineVersion_tag_of_colon_free_name_witness :
    GetPipelineVersion
        [⟨[], ⟨⟨[], ⟨[⟨"gcr.io/x/pipeline/cmd/controller:v0.9.0@sha256:abcd"⟩]⟩⟩⟩⟩] =
      some [ResponseCall.WriteEntity (Entity.str "v0.9.0")] :=
  GetPipelineVersion_tag_of_colon_free_name [] [] _ "gcr.io/x/pipeline/cmd/controller"
    "v0.9.0" [] (by decide) (by decide) (by decide) (by decide) (by decide) (by decide)
    (Or.inr ⟨"sha256:abcd", by decide⟩)

/-- C8: when every deployment of the list has no or an empty "tekton.dev/release" value
and a first container whose image lacks the marker "pipeline/cmd/controller",
`GetPipelineVersion` writes the literal "Unknown"; the empty list is included. -/
theorem GetPipelineVersion_unknown_without_source (items : List Deployment)
    (h : ∀ d ∈ items, mapIndex d.Spec.Template.Annotations "tekton.dev/release" = "" ∧
      ∃ c cs, d.Spec.Template.Spec.Containers = c :: cs ∧
        stringsContains c.Image "pipeline/cmd/controller" = false) :
    GetPipelineVersion items = some [ResponseCall.WriteEntity (Entity.str "Unknown")] := by
  have hl : pipelineVersionLoop items "" = some "" := by
    induction items with
    | nil => rfl
    | cons d rest ih =>
      obtain ⟨ha, c, cs, hc, hm⟩ := h d (List.mem_cons_self d rest)
      rw [pipelineVersionLoop, pipelineVersionBody_of_no_marker d c cs ha hc hm]
      exact ih (fun d' hd' => h d' (List.mem_cons_of_mem d hd'))
  rw [GetPipelineVersion_of_loop _ _ hl]
  simp

/-- Witness for C8: two deployments, one without the key and one with an empty value. -/
theorem GetPipelineVersion_unknown_without_source_witness :
    GetPipelineVersion
        [⟨[], ⟨⟨[], ⟨[⟨"gcr.io/x/webhook:v0.9.0"⟩]⟩⟩⟩⟩,
          ⟨[], ⟨⟨[("tekton.dev/release", "")], ⟨[⟨"nginx"⟩, ⟨"pipeline/cmd/controller:v1"⟩]⟩⟩⟩⟩] =
      some [ResponseCall.WriteEntity (Entity.str "Unknown")] :=
  GetPipelineVersion_unknown_without_source _ (by
    intro d hd
    simp only [List.mem_cons, List.mem_singleton, List.not_mem_nil, or_false] at hd
    rcases hd with rfl | rfl
    · exact ⟨by decide, _, _, rfl, by decide⟩
    · exact ⟨by decide, _, _, rfl, by decide⟩)

/-- C9 at its failing inputs: `GetPipelineVersion` panics on a deployment without
release value whose first container's image holds the marker and no ':', and on a
deployment without release value and without containers. -/
theorem GetPipelineVersion_panics :
    GetPipelineVersion [⟨[], ⟨⟨[], ⟨[⟨"gcr.io/tekton/pipeline/cmd/controller"⟩]⟩⟩⟩⟩] = none ∧
      GetPipelineVersion [⟨[], ⟨⟨[], ⟨[]⟩⟩⟩⟩] = none := by
  decide

/-- The claim of C10 as written fails: a deployment labelled `version: Unknown` makes
`GetDashboardVersion` write "Unknown" although the resolved candidate is not empty. -/
theorem version_sentinel_not_only_for_empty_candidate :
    ¬ ∀ items : List Deployment,
      (∃ e, GetDashboardVersion items = [ResponseCall.WriteEntity (Entity.str e)] ∧
        e ≠ "" ∧ (e = "Unknown" ↔ dashboardVersionLoop items "" = "") ∧
        (dashboardVersionLoop items "" ≠ "" → e = dashboardVersionLoop items "")) ∧
      (∀ c, pipelineVersionLoop items "" = some c →
        ∃ e, GetPipelineVersion items = some [ResponseCall.WriteEntity (Entity.str e)] ∧
          e ≠ "" ∧ (e = "Unknown" ↔ c = "") ∧ (c ≠ "" → e = c)) := by
  intro hall
  obtain ⟨⟨e, he, -, hiff, -⟩, -⟩ := hall [⟨[("version", "Unknown")], ⟨⟨[], ⟨[]⟩⟩⟩⟩]
  have h1 : GetDashboardVersion [⟨[("version", "Unknown")], ⟨⟨[], ⟨[]⟩⟩⟩⟩] =
      [ResponseCall.WriteEntity (Entity.str "Unknown")] := by decide
  have h2 : dashboardVersionLoop [⟨[("version", "Unknown")], ⟨⟨[], ⟨[]⟩⟩⟩⟩] "" ≠ "" := by
    decide
  rw [h1] at he
  have he' : e = "Unknown" := by
    simpa using he.symm
  exact h2 (hiff.mp he')

/-- C10, amended: on every list on which resolution completes, both version resolvers
write one non-empty string, which is "Unknown" when the resolved candidate is empty and
the candidate itself otherwise; so it is "Unknown" exactly when the candidate is empty
or is the string "Unknown". -/
theorem version_entity_nonempty_normalized (items : List Deployment) :
    (∃ e, GetDashboardVersion items = [ResponseCall.WriteEntity (Entity.str e)] ∧
      e ≠ "" ∧ (dashboardVersionLoop items "" = "" → e = "Unknown") ∧
      (dashboardVersionLoop items "" ≠ "" → e = dashboardVersionLoop items "") ∧
      (e = "Unknown" ↔
        dashboardVersionLoop items "" = "" ∨ dashboardVersionLoop items "" = "Unknown")) ∧
    (∀ c, pipelineVersionLoop items "" = some c →
      ∃ e, GetPipelineVersion items = some [ResponseCall.WriteEntity (Entity.str e)] ∧
        e ≠ "" ∧ (c = "" → e = "Unknown") ∧ (c ≠ "" → e = c) ∧
        (e = "Unknown" ↔ c = "" ∨ c = "Unknown")) := by
  have hU : ("Unknown" : String) ≠ "" := by decide
  constructor
  · by_cases hv : dashboardVersionLoop items "" = ""
    · exact ⟨"Unknown", by simp [GetDashboardVersion, hv], hU, fun _ => rfl,
        fun hne => absurd hv hne, by simp [hv]⟩
    · exact ⟨dashboardVersionLoop items "", by simp [GetDashboardVersion, hv], hv,
        fun h0 => absurd h0 hv, fun _ => rfl, by simp [hv]⟩
  · intro c hc
    rw [GetPipelineVersion_of_loop items c hc]
    by_cases hv : c = ""
    · exact ⟨"Unknown", by simp [hv], hU, fun _ => rfl, fun hne => absurd hv hne,
        by simp [hv]⟩
    · exact ⟨c, by simp [hv], hv, fun h0 => absurd h0 hv, fun _ => rfl, by simp [hv]⟩

/-- Witness for C10: a labelled deployment with a release value completes in both
resolvers, each writing its own candidate. -/
theorem version_entity_nonempty_normalized_witness :
    GetDashboardVersion
        [⟨[("version", "v0.5.1")], ⟨⟨[("tekton.dev/release", "v0.10.1")], ⟨[]⟩⟩⟩⟩] =
        [ResponseCall.WriteEntity (Entity.str "v0.5.1")] ∧
      GetPipelineVersion
        [⟨[("version", "v0.5.1")], ⟨⟨[("tekton.dev/release", "v0.10.1")], ⟨[]⟩⟩⟩⟩] =
        some [ResponseCall.WriteEntity (Entity.str "v0.10.1")] := by
  have h := version_entity_nonempty_normalized
    [⟨[("version", "v0.5.1")], ⟨⟨[("tekton.dev/release", "v0.10.1")], ⟨[]⟩⟩⟩⟩]
  obtain ⟨⟨e1, h1, -, -, h1c, -⟩, h2⟩ := h
  obtain ⟨e2, h2e, -, -, h2c, -⟩ := h2 "v0.10.1" (by decide)
  rw [h1, h2e, h1c (by decide), h2c (by decide)]
  exact ⟨by decide, rfl⟩

/-! ## Theorems: `GetDashboardVersion` and the entries of `GetEndpoints` -/

/-- After the loop of `GetDashboardVersion`, `version` is the "version" label of the
last deployment ranged over, or the starting value when there is none. -/
theorem dashboardVersionLoop_eq (items : List Deployment) (version : String) :
    dashboardVersionLoop items version =
      match items.getLast? with
      | none => version
      | some d => mapIndex d.Labels "version" := by
  induction items generalizing version with
  | nil => rfl
  | cons d rest ih =>
    rw [dashboardVersionLoop, ih]
    cases rest with
    | nil => rfl
    | cons d' rest' =>
      rw [List.getLast?_cons_cons]
      cases hl : (d' :: rest').getLast? with
      | none => simp at hl
      | some x => rfl

/-- C11: for every list of deployments `GetDashboardVersion` completes with one
`WriteEntity` call; it writes the "version" label of the last deployment when that
value is non-empty and "Unknown" when the list is empty or that label is absent or
empty; two lists with the same labels get the same response, whatever their
annotations and container images are. -/
theorem GetDashboardVersion_last_version_label (items : List Deployment) :
    GetDashboardVersion items =
        [ResponseCall.WriteEntity (Entity.str
          (match items.getLast? with
            | none => "Unknown"
            | some d =>
              if mapIndex d.Labels "version" = "" then "Unknown"
              else mapIndex d.Labels "version"))] ∧
      ∀ others : List Deployment,
        others.map (fun d => d.Labels) = items.map (fun d => d.Labels) →
          GetDashboardVersion others = GetDashboardVersion items := by
  have key : ∀ l : List Deployment, GetDashboardVersion l =
      [ResponseCall.WriteEntity (Entity.str
        (match (l.map (fun d => d.Labels)).getLast? with
          | none => "Unknown"
          | some labels =>
            if mapIndex labels "version" = "" then "Unknown"
            else mapIndex labels "version"))] := by
    intro l
    unfold GetDashboardVersion
    rw [dashboardVersionLoop_eq, List.getLast?_map]
    cases l.getLast? with
    | none => simp
    | some d => by_cases hv : mapIndex d.Labels "version" = "" <;> simp [hv]
  constructor
  · rw [key, List.getLast?_map]
    cases items.getLast? <;> rfl
  · intro others h
    rw [key others, key items, h]

/-- Witness for C11: the label of the last deployment is written, and neither the
label of an earlier deployment nor a release value or an image is. -/
theorem GetDashboardVersion_last_version_label_witness :
    GetDashboardVersion
        [⟨[("version", "v0.1.0")], ⟨⟨[], ⟨[]⟩⟩⟩⟩,
          ⟨[("app", "tekton-dashboard"), ("version", "v0.5.1")],
            ⟨⟨[("tekton.dev/release", "v9")], ⟨[⟨"x/pipeline/cmd/controller:v8"⟩]⟩⟩⟩⟩] =
      [ResponseCall.WriteEntity (Entity.str "v0.5.1")] :=
  (GetDashboardVersion_last_version_label _).1.trans (by decide)

/-- C12: every entry of a sequence written by `GetEndpoints` has a non-empty `Url` and
the `Type_` "Route" or "Ingress"; a route with an empty host and an ingress whose first
rule has an empty host add no entry to the sequence. -/
theorem GetEndpoints_entries_have_host (route : Option Route) (routeErr : Option GoError)
    (ingress : Option Ingress) (err : Option GoError) (es : List element)
    (h : ResponseCall.WriteEntity (Entity.elements es) ∈
      GetEndpoints route routeErr ingress err) :
    (∀ e ∈ es, e.Url ≠ "" ∧ (e.Type_ = "Route" ∨ e.Type_ = "Ingress")) ∧
      (∀ (responses : List element) (r : Route), r.Spec.Host = "" →
        routeBlock responses (some r) routeErr = responses) ∧
      (∀ (responses : List element) (i : Ingress) (rule : IngressRule)
          (rest : List IngressRule), i.Spec.Rules = rule :: rest → rule.Host = "" →
        ingressBlock responses (some i) err = responses) := by
  refine ⟨?_, ?_, ?_⟩
  · rw [GetEndpoints_eq] at h
    have hes : es = (usableRouteHost route routeErr).toList.map (element.mk "Route") ++
        (usableIngressHost ingress err).toList.map (element.mk "Ingress") := by
      split at h
      · simpa using h
      · simp at h
    intro e he
    rw [hes, List.mem_append] at he
    rcases he with he | he
    · obtain ⟨host, hhost, rfl⟩ := List.mem_map.mp he
      rw [Option.mem_toList, Option.mem_def, usableRouteHost_eq_some_iff] at hhost
      obtain ⟨-, r, -, -, hne⟩ := hhost
      exact ⟨hne, Or.inl rfl⟩
    · obtain ⟨host, hhost, rfl⟩ := List.mem_map.mp he
      rw [Option.mem_toList, Option.mem_def, usableIngressHost_eq_some_iff] at hhost
      obtain ⟨-, i, r, rest, -, -, -, hne⟩ := hhost
      exact ⟨hne, Or.inr rfl⟩
  · intro responses r hr
    rcases routeErr with _ | e <;> simp [routeBlock, hr]
  · intro responses i rule rest hrules hhost
    rcases err with _ | e <;> simp [ingressBlock, hrules, hhost]

/-- Witness for C12: a route without host and an ingress with a host give the one
Ingress entry, whose host is not empty. -/
theorem GetEndpoints_entries_have_host_witness :
    GetEndpoints (some ⟨⟨""⟩⟩) none (some ⟨⟨[⟨"dash.example.com"⟩]⟩⟩) none =
        [ResponseCall.WriteEntity (Entity.elements [⟨"Ingress", "dash.example.com"⟩])] ∧
      (⟨"Ingress", "dash.example.com"⟩ : element).Url ≠ "" ∧
      ((⟨"Ingress", "dash.example.com"⟩ : element).Type_ = "Route" ∨
        (⟨"Ingress", "dash.example.com"⟩ : element).Type_ = "Ingress") :=
  ⟨by decide,
    (GetEndpoints_entries_have_host (some ⟨⟨""⟩⟩) none
      (some ⟨⟨[⟨"dash.example.com"⟩]⟩⟩) none [⟨"Ingress", "dash.example.com"⟩]
      (by decide)).1 ⟨"Ingress", "dash.example.com"⟩ (List.mem_singleton.mpr rfl)⟩

/-! ## Theorems: `ProxyRequest` and `GetProperties` -/

/-- C13: for every inbound method `m`, sub-path `p`, body and Content-Type header `c`,
and every raw query `q` of the parsed URL, `ProxyRequest` builds the forwarded request
with verb `m`, request URI `p ++ "?" ++ q`, the inbound body as body and the one header
Content-Type set to `c`, whatever the backing server answers. -/
theorem ProxyRequest_forwards_method_path_query (GetContentType : Bytes → String)
    (doRaw : ForwardRequest → Bytes × Option GoError) (m p q c : String) (body : Bytes) :
    (ProxyRequest GetContentType doRaw ⟨m, p, body, c⟩ (Except.ok ⟨q⟩)).forwardRequest =
      some ⟨m, p ++ "?" ++ q, body, [("Content-Type", c)]⟩ := by
  unfold ProxyRequest
  simp only [ForwardRequest.SetHeader, List.filter_nil, List.nil_append]
  split <;> rfl

/-- Witness for C13: `GET /proxy/api/v1/pods?watch=false` is forwarded as `GET` of
`api/v1/pods?watch=false`. -/
theorem ProxyRequest_forwards_method_path_query_witness :
    (ProxyRequest (fun _ => "application/json") (fun _ => ([], none))
        ⟨"GET", "api/v1/pods", [], "application/json"⟩
        (Except.ok ⟨"watch=false"⟩)).forwardRequest =
      some ⟨"GET", "api/v1/pods?watch=false", [], [("Content-Type", "application/json")]⟩ :=
  (ProxyRequest_forwards_method_path_query (fun _ => "application/json")
    (fun _ => ([], none)) "GET" "api/v1/pods" "watch=false" "application/json" []).trans
    (by decide)

/-- C14: once the URL is parsed, when the backing call returns an error `ProxyRequest`
makes the single call `RespondError` with that error at status 404, and neither writes
body bytes nor adds a Content-Type header; when the backing call succeeds with body `b`
it adds the header Content-Type with the value `GetContentType b` and then writes
exactly `b`, whatever the inbound request and its Content-Type header are. -/
theorem ProxyRequest_response (GetContentType : Bytes → String)
    (doRaw : ForwardRequest → Bytes × Option GoError) (request : InboundRequest)
    (parsedURL : URL) (b : Bytes) (requestError : Option GoError)
    (h : doRaw (⟨request.Method, request.subpath ++ "?" ++ parsedURL.RawQuery,
      request.Body, [("Content-Type", request.ContentType)]⟩ : ForwardRequest) =
        (b, requestError)) :
    (∀ e, requestError = some e →
      (ProxyRequest GetContentType doRaw request (Except.ok parsedURL)).response =
          [ResponseCall.RespondError (some e) StatusNotFound] ∧
        (∀ body, ResponseCall.Write body ∉
          (ProxyRequest GetContentType doRaw request (Except.ok parsedURL)).response) ∧
        (∀ key value, ResponseCall.HeaderAdd key value ∉
          (ProxyRequest GetContentType doRaw request (Except.ok parsedURL)).response)) ∧
    (requestError = none →
      (ProxyRequest GetContentType doRaw request (Except.ok parsedURL)).response =
        [ResponseCall.HeaderAdd "Content-Type" (GetContentType b), ResponseCall.Write b]) := by
  have hfr : (⟨request.Method, request.subpath ++ "?" ++ parsedURL.RawQuery, request.Body,
      []⟩ : ForwardRequest).SetHeader "Content-Type" request.ContentType =
      ⟨request.Method, request.subpath ++ "?" ++ parsedURL.RawQuery, request.Body,
        [("Content-Type", request.ContentType)]⟩ := rfl
  constructor
  · intro e he
    have hr : (ProxyRequest GetContentType doRaw request (Except.ok parsedURL)).response =
        [ResponseCall.RespondError (some e) StatusNotFound] := by
      simp only [ProxyRequest, hfr, h, he]
      simp
    rw [hr]
    simp
  · intro he
    simp only [ProxyRequest, hfr, h, he]
    simp

/-- Witness for C14: a backing server that fails on every request but `GET` of
`api/v1/pods?watch=false`, for which it returns two bytes. -/
theorem ProxyRequest_response_witness :
    (ProxyRequest (fun b => if b = [123, 125] then "application/json" else "text/plain")
        (fun fr => if fr.RequestURI = "api/v1/pods?watch=false" then ([123, 125], none)
          else ([], some "the server could not find the requested resource"))
        ⟨"GET", "api/v1/pods", [], "text/html"⟩ (Except.ok ⟨"watch=false"⟩)).response =
      [ResponseCall.HeaderAdd "Content-Type" "application/json",
        ResponseCall.Write [123, 125]] :=
  ((ProxyRequest_response
    (fun b => if b = [123, 125] then "application/json" else "text/plain")
    (fun fr => if fr.RequestURI = "api/v1/pods?watch=false" then ([123, 125], none)
      else ([], some "the server could not find the requested resource"))
    ⟨"GET", "api/v1/pods", [], "text/html"⟩ ⟨"watch=false"⟩ [123, 125] none
    (by decide)).2 rfl).trans (by decide)

/-- C15: in every environment `GetProperties` makes the single call `WriteEntity` with
`Properties{InstallNamespace: v}`, where `v` is the value of `INSTALLED_NAMESPACE` when
the variable is set and the empty string when it is unset; it never makes a
`RespondError` call. -/
theorem GetProperties_returns_environment_value (env : List (String × String)) :
    (∀ v, env.lookup "INSTALLED_NAMESPACE" = some v →
      GetProperties env = [ResponseCall.WriteEntity (Entity.properties ⟨v⟩)]) ∧
    (env.lookup "INSTALLED_NAMESPACE" = none →
      GetProperties env = [ResponseCall.WriteEntity (Entity.properties ⟨""⟩)]) ∧
    (∀ e status, ResponseCall.RespondError e status ∉ GetProperties env) := by
  refine ⟨?_, ?_, ?_⟩
  · intro v hv
    simp [GetProperties, osGetenv, hv]
  · intro hv
    simp [GetProperties, osGetenv, hv]
  · intro e status
    simp [GetProperties]

/-- Witness for C15: an environment without `INSTALLED_NAMESPACE`, and one with it. -/
theorem GetProperties_returns_environment_value_witness :
    GetProperties [("HOME", "/root")] =
        [ResponseCall.WriteEntity (Entity.properties ⟨""⟩)] ∧
      GetProperties [("HOME", "/root"), ("INSTALLED_NAMESPACE", "tekton-pipelines")] =
        [ResponseCall.WriteEntity (Entity.properties ⟨"tekton-pipelines"⟩)] :=
  ⟨(GetProperties_returns_environment_value [("HOME", "/root")]).2.1 (by decide),
    (GetProperties_returns_environment_value
      [("HOME", "/root"), ("INSTALLED_NAMESPACE", "tekton-pipelines")]).1
      "tekton-pipelines" (by decide)⟩

/-! ## Theorems: relations between the handlers -/

/-- When the loop of `GetPipelineVersion` completes on a non-empty list, `version` is
what the iteration on the last deployment alone gives. -/
theorem pipelineVersionLoop_last (items : List Deployment) (h : items ≠ [])
    (version result : String) (hl : pipelineVersionLoop items version = some result) :
    pipelineVersionBody (items.getLast h) = some result := by
  induction items generalizing version with
  | nil => exact absurd rfl h
  | cons d rest ih =>
    rw [pipelineVersionLoop] at hl
    cases hb : pipelineVersionBody d with
    | none => simp [hb] at hl
    | some v =>
      simp only [hb] at hl
      cases rest with
      | nil =>
        simp only [pipelineVersionLoop, Option.some.injEq] at hl
        simpa [hl] using hb
      | cons d' rest' =>
        rw [List.getLast_cons (List.cons_ne_nil d' rest')]
        exact ih (List.cons_ne_nil d' rest') v hl

/-- C16: on every non-empty list of deployments, `GetDashboardVersion` answers as on
the list holding only the last deployment, and so does `GetPipelineVersion` whenever it
completes on the list; nothing found in an earlier deployment carries over. -/
theorem version_resolvers_last_match_wins (items : List Deployment) (h : items ≠ []) :
    GetDashboardVersion items = GetDashboardVersion [items.getLast h] ∧
      (GetPipelineVersion items ≠ none →
        GetPipelineVersion items = GetPipelineVersion [items.getLast h]) := by
  constructor
  · unfold GetDashboardVersion
    rw [dashboardVersionLoop_eq, dashboardVersionLoop_eq, List.getLast?_eq_getLast _ h]
    rfl
  · intro hne
    cases hl : pipelineVersionLoop items "" with
    | none => simp [GetPipelineVersion, hl] at hne
    | some result =>
      have hb := pipelineVersionLoop_last items h "" result hl
      have hl' : pipelineVersionLoop [items.getLast h] "" = some result := by
        simp [pipelineVersionLoop, hb]
      rw [GetPipelineVersion_of_loop _ _ hl, GetPipelineVersion_of_loop _ _ hl']

/-- Witness for C16: the release value and the label of the first deployment do not
carry over to the answer, which is that of the second deployment alone. -/
theorem version_resolvers_last_match_wins_witness :
    GetDashboardVersion
        [⟨[("version", "v0.5.1")], ⟨⟨[("tekton.dev/release", "v0.10.1")], ⟨[]⟩⟩⟩⟩,
          ⟨[], ⟨⟨[], ⟨[⟨"gcr.io/x/webhook:v0.9.0"⟩]⟩⟩⟩⟩] =
        [ResponseCall.WriteEntity (Entity.str "Unknown")] ∧
      GetPipelineVersion
        [⟨[("version", "v0.5.1")], ⟨⟨[("tekton.dev/release", "v0.10.1")], ⟨[]⟩⟩⟩⟩,
          ⟨[], ⟨⟨[], ⟨[⟨"gcr.io/x/webhook:v0.9.0"⟩]⟩⟩⟩⟩] =
        some [ResponseCall.WriteEntity (Entity.str "Unknown")] :=
  ⟨(version_resolvers_last_match_wins
      [⟨[("version", "v0.5.1")], ⟨⟨[("tekton.dev/release", "v0.10.1")], ⟨[]⟩⟩⟩⟩,
        ⟨[], ⟨⟨[], ⟨[⟨"gcr.io/x/webhook:v0.9.0"⟩]⟩⟩⟩⟩] (by decide)).1.trans (by decide),
    ((version_resolvers_last_match_wins
      [⟨[("version", "v0.5.1")], ⟨⟨[("tekton.dev/release", "v0.10.1")], ⟨[]⟩⟩⟩⟩,
        ⟨[], ⟨⟨[], ⟨[⟨"gcr.io/x/webhook:v0.9.0"⟩]⟩⟩⟩⟩] (by decide)).2
      (by decide)).trans (by decide)⟩

/-- When `GetIngress` writes the host `h`, the ingress lookup is usable with host `h`. -/
theorem usableIngressHost_of_GetIngress (ingress : Option Ingress) (err : Option GoError)
    (h : String) (hs : GetIngress ingress err = [ResponseCall.WriteEntity (Entity.str h)]) :
    usableIngressHost ingress err = some h := by
  rcases err with _ | e <;> rcases ingress with _ | i
  · simp [GetIngress] at hs
  · cases hr : i.Spec.Rules with
    | nil => simp [GetIngress, hr] at hs
    | cons r rest =>
      by_cases hh : r.Host = ""
      · simp [GetIngress, hr, hh] at hs
      · simp only [GetIngress, hr, ne_eq, hh, not_false_eq_true, if_true, List.cons.injEq,
          ResponseCall.WriteEntity.injEq, Entity.str.injEq, and_true] at hs
        subst hs
        simp [usableIngressHost, hr, hh]
  · simp [GetIngress] at hs
  · simp [GetIngress] at hs

/-- C17: for every route lookup result and ingress lookup result on which `GetIngress`
writes the host `h`, `GetEndpoints` writes a sequence as well, and the last entry of
that sequence is the Ingress entry with host `h`. -/
theorem GetEndpoints_subsumes_GetIngress (route : Option Route) (routeErr : Option GoError)
    (ingress : Option Ingress) (err : Option GoError) (h : String)
    (hs : GetIngress ingress err = [ResponseCall.WriteEntity (Entity.str h)]) :
    ∃ es, GetEndpoints route routeErr ingress err =
        [ResponseCall.WriteEntity (Entity.elements es)] ∧
      es.getLast? = some ⟨"Ingress", h⟩ := by
  have hu := usableIngressHost_of_GetIngress ingress err h hs
  refine ⟨(usableRouteHost route routeErr).toList.map (element.mk "Route") ++
    [⟨"Ingress", h⟩], ?_, by simp⟩
  rw [GetEndpoints_eq, hu]
  simp

/-- Witness for C17: with a failed route lookup and an ingress whose first rule has a
host, `GetEndpoints` writes the Ingress entry of that host. -/
theorem GetEndpoints_subsumes_GetIngress_witness :
    ∃ es, GetEndpoints none (some "routes not found")
        (some ⟨⟨[⟨"dash.example.com"⟩]⟩⟩) none =
        [ResponseCall.WriteEntity (Entity.elements es)] ∧
      es.getLast? = some ⟨"Ingress", "dash.example.com"⟩ :=
  GetEndpoints_subsumes_GetIngress none (some "routes not found")
    (some ⟨⟨[⟨"dash.example.com"⟩]⟩⟩) none "dash.example.com" (by decide)

/-! ## Theorems: the version candidate taken from an image -/

/-- The first piece of a split at a one-character separator starts the list that is
split, and holds no separator when the separator is dropped. -/
theorem genSplitChars_single_head (x : Char) (save : Bool) (l : List Char) :
    ∃ post, l = (genSplitChars [x] save 0 l).headD [] ++ post ∧
      (save = false → x ∉ (genSplitChars [x] save 0 l).headD []) := by
  induction l with
  | nil => exact ⟨[], by simp [genSplitChars], by simp [genSplitChars]⟩
  | cons c cs ih =>
    by_cases hc : c = x
    · subst hc
      rw [genSplitChars_single_cons_sep]
      cases save with
      | true => exact ⟨cs, by simp, by simp⟩
      | false => exact ⟨c :: cs, by simp, by simp⟩
    · obtain ⟨post, hpost, hfree⟩ := ih
      have hx : x ∉ [c] := by
        simpa using fun e : x = c => hc e.symm
      have happ := genSplitChars_single_append x save [c] cs hx
      rw [List.singleton_append] at happ
      rw [happ]
      refine ⟨post, ?_, ?_⟩
      · simpa using hpost
      · intro hsave
        simp only [List.headD_cons, List.singleton_append, List.mem_cons, not_or]
        exact ⟨fun e => hc e.symm, hfree hsave⟩

/-- A list that holds `x` splits at the first `x`. -/
theorem exists_first_occurrence (x : Char) (l : List Char) (h : x ∈ l) :
    ∃ pre rest, l = pre ++ x :: rest ∧ x ∉ pre := by
  induction l with
  | nil => simp at h
  | cons c cs ih =>
    by_cases hc : c = x
    · exact ⟨[], cs, by simp [hc], by simp⟩
    · have hcs : x ∈ cs := by
        rcases List.mem_cons.mp h with e | e
        · exact absurd e.symm hc
        · exact e
      obtain ⟨pre, rest, hl, hpre⟩ := ih hcs
      refine ⟨c :: pre, rest, by simp [hl], ?_⟩
      simp only [List.mem_cons, not_or]
      exact ⟨fun e => hc e.symm, hpre⟩

/-- C18: for a deployment without release value whose first container's image holds the
marker "pipeline/cmd/controller" and at least one ':', the iteration of
`GetPipelineVersion` completes with a candidate that is a contiguous part of the image,
begins right after the first ':' of the image and holds no '@'. -/
theorem pipelineVersionBody_candidate_after_first_colon (d : Deployment) (c : Container)
    (cs : List Container)
    (ha : mapIndex d.Spec.Template.Annotations "tekton.dev/release" = "")
    (hc : d.Spec.Template.Spec.Containers = c :: cs)
    (hm : stringsContains c.Image "pipeline/cmd/controller" = true)
    (hcolon : ':' ∈ c.Image.data) :
    ∃ candidate pre post : String, pipelineVersionBody d = some candidate ∧
      c.Image = pre ++ ":" ++ candidate ++ post ∧ ':' ∉ pre.data ∧ '@' ∉ candidate.data := by
  obtain ⟨pre, rest, himage, hpre⟩ := exists_first_occurrence ':' c.Image.data hcolon
  obtain ⟨piece1, hpiece1⟩ : ∃ piece1, (genSplitChars [':'] true 0 rest).headD [] = piece1 :=
    ⟨_, rfl⟩
  obtain ⟨piece0, hpiece0⟩ :
      ∃ piece0, (genSplitChars ['@'] false 0 piece1).headD [] = piece0 := ⟨_, rfl⟩
  obtain ⟨post1, hpost1, -⟩ := genSplitChars_single_head ':' true rest
  obtain ⟨post2, hpost2, hfree⟩ := genSplitChars_single_head '@' false piece1
  rw [hpiece1] at hpost1
  rw [hpiece0] at hpost2 hfree
  have hsep1 : ((":" : String) = "") = False := by decide
  have hsep2 : (("@" : String) = "") = False := by decide
  have hcd : (":" : String).data = [':'] := rfl
  have had : ("@" : String).data = ['@'] := rfl
  have hsplit : (stringsSplitAfter c.Image ":").get? 1 = some (String.mk piece1) := by
    simp only [stringsSplitAfter, hsep1, if_false, hcd, himage,
      genSplitChars_single_append ':' true pre _ hpre, genSplitChars_single_cons_sep,
      List.get?_eq_getElem?, List.getElem?_map]
    cases hg : genSplitChars [':'] true 0 rest with
    | nil => exact absurd hg (genSplitChars_ne_nil _ _ _ _)
    | cons piece pieces =>
      rw [hg, List.headD_cons] at hpiece1
      simp [hpiece1]
  have hsplit2 : (stringsSplit (String.mk piece1) "@").get? 0 = some (String.mk piece0) := by
    simp only [stringsSplit, hsep2, if_false, had, List.get?_eq_getElem?, List.getElem?_map]
    cases hg : genSplitChars ['@'] false 0 piece1 with
    | nil => exact absurd hg (genSplitChars_ne_nil _ _ _ _)
    | cons piece pieces =>
      rw [hg, List.headD_cons] at hpiece0
      simp [hpiece0]
  refine ⟨String.mk piece0, String.mk pre, String.mk (post2 ++ post1), ?_, ?_, hpre,
    hfree rfl⟩
  · simp only [pipelineVersionBody, ha, hc, hm, if_true, hsplit, hsplit2]
  · apply String.ext
    simp only [String.data_append, hcd, himage]
    rw [hpost1, hpost2]
    simp

/-- Witness for C18: the specification's example image, which holds the marker, a tag
and a digest. -/
theorem pipelineVersionBody_candidate_after_first_colon_witness :
    ∃ candidate pre post : String,
      pipelineVersionBody
          ⟨[], ⟨⟨[], ⟨[⟨"gcr.io/x/pipeline/cmd/controller:v0.9.0@sha256:abcd"⟩]⟩⟩⟩⟩ =
        some candidate ∧
      "gcr.io/x/pipeline/cmd/controller:v0.9.0@sha256:abcd" =
        pre ++ ":" ++ candidate ++ post ∧
      ':' ∉ pre.data ∧ '@' ∉ candidate.data :=
  pipelineVersionBody_candidate_after_first_colon
    ⟨[], ⟨⟨[], ⟨[⟨"gcr.io/x/pipeline/cmd/controller:v0.9.0@sha256:abcd"⟩]⟩⟩⟩⟩
    ⟨"gcr.io/x/pipeline/cmd/controller:v0.9.0@sha256:abcd"⟩ [] (by decide) rfl (by decide)
    (by decide)

end Endpoints
